import Mathlib

/-!
Verification of the phenomenon WebGL instancing library (src/index.ts)
against its natural-language specification.

The development shallowly embeds the CPU-side behaviour of the library:

* the attribute-compilation loop of Instance.prepareAttribute
  (Float32Array synthesis from generators, reserved geometry channels and
  modifiers),
* the per-attribute buffer bookkeeping of prepareAttribute/prepareBuffer,
* the uniform merge step of Instance.render together with the
  serialize-then-parse uniform seeding of Renderer.add (with an explicit
  heap so that aliasing of value arrays is observable),
* Instance.destroy and the Renderer registry / frame-loop state machine
  (add, remove, toggle, destroy).

JavaScript numbers are modelled as exact rationals; a Float32Array slot
additionally holds NaN when JavaScript writes undefined into it, modelled
as the value none.  Operations that throw a TypeError in JavaScript
(reading a property of undefined or null, calling a non-function) are
modelled in the Except monad.
-/

namespace Phenomenon

/-- A JavaScript numeric value as it ends up in a Float32Array slot:
either an actual number (an exact rational; float rounding is not
modelled) or NaN, written none, which is what storing undefined yields. -/
abbrev JNum := Option ℚ

/-- One entry of geometry.vertices or geometry.normal: an object with
x, y and z fields. -/
structure Vec3 where
  x : ℚ
  y : ℚ
  z : ℚ
deriving DecidableEq

/-- Reading v[positionMap[l]] for positionMap = ['x', 'y', 'z'].
For l ≥ 3 the key is undefined, the property read yields undefined and
the Float32Array stores NaN. -/
def vecCoord (v : Vec3) (l : Nat) : JNum :=
  match l with
  | 0 => some v.x
  | 1 => some v.y
  | 2 => some v.z
  | _ => none

/-- A modifier from the instance's modifiers table, called as
modifier(data, k, l, this).  The trailing instance argument is fixed for
the whole compilation, so it is absorbed into the function. -/
abbrev ModifierF := Option (List ℚ) → Nat → Nat → ℚ

/-- The data field of an attribute descriptor: absent, a generator
function, or an already-compiled Float32Array (which prepareAttribute
stores back into the descriptor). -/
inductive AttrData where
  | noData : AttrData
  | gen : (Nat → Nat → List ℚ) → AttrData
  | buf : List JNum → AttrData

/-- An attribute descriptor (interface AttributeProps). -/
structure AttributeProps where
  name : String
  size : Nat
  data : AttrData

/-- One element written by the innermost loop of
Instance.prepareAttribute: the modifier wins if one is registered for
the attribute's name; else the reserved aPosition / aNormal channels
read the vertex / normal coordinate; else the generator output at index
l is used.  Reading normal[k] when geometry.normal is undefined, or
data[l] when data is undefined, throws. -/
def bufferElement (modifiers : String → Option ModifierF) (vertices : List Vec3)
    (normal : Option (List Vec3)) (name : String) (data : Option (List ℚ))
    (k l : Nat) : Except Unit JNum :=
  match modifiers name with
  | some modifier => .ok (some (modifier data k l))
  | none =>
    if name = "aPosition" then
      match vertices[k]? with
      | none => .error ()
      | some v => .ok (vecCoord v l)
    else if name = "aNormal" then
      match normal with
      | none => .error ()
      | some ns =>
        match ns[k]? with
        | none => .error ()
        | some v => .ok (vecCoord v l)
    else
      match data with
      | none => .error ()
      | some d => .ok d[l]?

/-- Sequencing of a list of fallible computations, left to right,
stopping at the first error (the order JavaScript executes the loop
bodies in). -/
def seqExcept {α : Type} : List (Except Unit α) → Except Unit (List α)
  | [] => .ok []
  | e :: es =>
    match e with
    | .error u => .error u
    | .ok a =>
      match seqExcept es with
      | .error u => .error u
      | .ok as => .ok (a :: as)

/-- The two inner loops of Instance.prepareAttribute for one replica:
for k over the vertex count and l over the attribute size, the elements
are written consecutively. -/
def replicaBlock (modifiers : String → Option ModifierF) (vertices : List Vec3)
    (normal : Option (List Vec3)) (name : String) (size : Nat)
    (data : Option (List ℚ)) : Except Unit (List JNum) :=
  (seqExcept ((List.range vertices.length).map (fun k =>
    seqExcept ((List.range size).map (fun l =>
      bufferElement modifiers vertices normal name data k l))))).map List.flatten

/-- Evaluation of the expression attribute.data && attribute.data(j,
multiplier), together with the list of generator invocations (argument
pairs) it performs.  An absent data field yields undefined; a generator
is called once with (j, multiplier); a stored Float32Array is truthy
but not callable, so the call throws. -/
def replicaData (ad : AttrData) (j multiplier : Nat) :
    Except Unit (Option (List ℚ)) × List (Nat × Nat) :=
  match ad with
  | .noData => (.ok none, [])
  | .gen g => (.ok (some (g j multiplier)), [(j, multiplier)])
  | .buf _ => (.error (), [])

/-- The outer loop of Instance.prepareAttribute over the replica
indices js (which the source runs over j = 0, ..., multiplier - 1):
per replica, evaluate attribute.data once, then fill the replica's
block of the buffer.  Returns the concatenated buffer (or the error
that aborted the loop) and the log of generator invocations performed
before completion or abort. -/
def runReplicas (modifiers : String → Option ModifierF) (vertices : List Vec3)
    (normal : Option (List Vec3)) (attr : AttributeProps)
    (multiplier : Nat) : List Nat → Except Unit (List JNum) × List (Nat × Nat)
  | [] => (.ok [], [])
  | j :: js =>
    match replicaData attr.data j multiplier with
    | (.error u, ev) => (.error u, ev)
    | (.ok data, ev) =>
      match replicaBlock modifiers vertices normal attr.name attr.size data with
      | .error u => (.error u, ev)
      | .ok blk =>
        match runReplicas modifiers vertices normal attr multiplier js with
        | (.error u, evs) => (.error u, ev ++ evs)
        | (.ok tail, evs) => (.ok (blk ++ tail), ev ++ evs)

/-- The buffer computed by Instance.prepareAttribute (the local
attributeBufferData of the source), as a list of Float32Array slots. -/
def attributeBufferData (modifiers : String → Option ModifierF)
    (vertices : List Vec3) (normal : Option (List Vec3))
    (attr : AttributeProps) (multiplier : Nat) : Except Unit (List JNum) :=
  (runReplicas modifiers vertices normal attr multiplier
    (List.range multiplier)).1

/-- The generator invocations performed while compiling an attribute,
in order, each recorded as its argument pair. -/
def generatorCallLog (modifiers : String → Option ModifierF)
    (vertices : List Vec3) (normal : Option (List Vec3))
    (attr : AttributeProps) (multiplier : Nat) : List (Nat × Nat) :=
  (runReplicas modifiers vertices normal attr multiplier
    (List.range multiplier)).2

/-! ### Basic lemmas about seqExcept and flatten -/

theorem seqExcept_ok_forall₂ {α : Type} :
    ∀ {es : List (Except Unit α)} {as : List α}, seqExcept es = .ok as →
      List.Forall₂ (fun e a => e = Except.ok a) es as := by
  intro es
  induction es with
  | nil =>
    intro as h
    simp only [seqExcept] at h
    cases h
    exact List.Forall₂.nil
  | cons e es ih =>
    intro as h
    simp only [seqExcept] at h
    cases e with
    | error u => cases h
    | ok a =>
      cases hrec : seqExcept es with
      | error u => rw [hrec] at h; cases h
      | ok as' =>
        rw [hrec] at h
        cases h
        exact List.Forall₂.cons rfl (ih hrec)

theorem seqExcept_ok_length {α : Type} {es : List (Except Unit α)} {as : List α}
    (h : seqExcept es = .ok as) : as.length = es.length :=
  (seqExcept_ok_forall₂ h).length_eq.symm

theorem forall₂_getElem? {α β : Type} {R : α → β → Prop} :
    ∀ {xs : List α} {ys : List β}, List.Forall₂ R xs ys →
      ∀ (i : Nat) (x : α), xs[i]? = some x → ∃ y : β, ys[i]? = some y ∧ R x y := by
  intro xs ys h
  induction h with
  | nil => intro i x hx; simp at hx
  | cons hr _ ih =>
    intro i x hx
    cases i with
    | zero =>
      simp only [List.getElem?_cons_zero] at hx ⊢
      cases hx
      exact ⟨_, rfl, hr⟩
    | succ n =>
      simp only [List.getElem?_cons_succ] at hx ⊢
      exact ih n x hx

theorem seqExcept_ok_getElem? {α : Type} {es : List (Except Unit α)} {as : List α}
    (h : seqExcept es = .ok as) (i : Nat) (e : Except Unit α)
    (he : es[i]? = some e) : ∃ a, as[i]? = some a ∧ e = .ok a :=
  forall₂_getElem? (seqExcept_ok_forall₂ h) i e he

theorem flatten_length_uniform {α : Type} (S : Nat) :
    ∀ (L : List (List α)), (∀ r ∈ L, r.length = S) →
      L.flatten.length = L.length * S := by
  intro L
  induction L with
  | nil => intro _; simp
  | cons r rest ih =>
    intro h
    have hr : r.length = S := h r (List.mem_cons_self r rest)
    have hrest : ∀ x ∈ rest, x.length = S := fun x hx => h x (List.mem_cons_of_mem r hx)
    simp only [List.flatten_cons, List.length_append, List.length_cons, ih hrest, hr]
    ring

theorem getElem?_flatten_uniform {α : Type} (S : Nat) :
    ∀ (L : List (List α)), (∀ r ∈ L, r.length = S) →
      ∀ k l, l < S →
        L.flatten[k * S + l]? = (L[k]?).bind (fun r => r[l]?) := by
  intro L
  induction L with
  | nil => intro _ k l _; simp
  | cons r rest ih =>
    intro h k l hl
    have hr : r.length = S := h r (List.mem_cons_self r rest)
    have hrest : ∀ x ∈ rest, x.length = S := fun x hx => h x (List.mem_cons_of_mem r hx)
    cases k with
    | zero =>
      simp only [Nat.zero_mul, Nat.zero_add, List.flatten_cons,
        List.getElem?_cons_zero, Option.bind_some]
      exact List.getElem?_append_left (hr ▸ hl)
    | succ n =>
      have harith : (n + 1) * S + l = S + (n * S + l) := by ring
      have hge : r.length ≤ (n + 1) * S + l := by
        rw [hr, harith]; omega
      simp only [List.flatten_cons, List.getElem?_cons_succ]
      rw [List.getElem?_append_right hge, hr, harith]
      simp only [Nat.add_sub_cancel_left]
      exact ih hrest n l hl

theorem forall₂_getElem?_right {α β : Type} {R : α → β → Prop} :
    ∀ {xs : List α} {ys : List β}, List.Forall₂ R xs ys →
      ∀ (i : Nat) (y : β), ys[i]? = some y → ∃ x : α, xs[i]? = some x ∧ R x y := by
  intro xs ys h
  induction h with
  | nil => intro i y hy; simp at hy
  | cons hr _ ih =>
    intro i y hy
    cases i with
    | zero =>
      simp only [List.getElem?_cons_zero] at hy ⊢
      cases hy
      exact ⟨_, rfl, hr⟩
    | succ n =>
      simp only [List.getElem?_cons_succ] at hy ⊢
      exact ih n y hy

theorem except_map_ok {α β : Type} {f : α → β} {e : Except Unit α} {b : β}
    (h : e.map f = .ok b) : ∃ a, e = .ok a ∧ b = f a := by
  cases e with
  | error u => simp [Except.map] at h
  | ok a =>
    simp only [Except.map, Except.ok.injEq] at h
    exact ⟨a, rfl, h.symm⟩

/-! ### Structure of a successfully compiled replica block -/

theorem replicaBlock_ok_rows {modifiers : String → Option ModifierF}
    {vertices : List Vec3} {normal : Option (List Vec3)} {name : String}
    {size : Nat} {data : Option (List ℚ)} {blk : List JNum}
    (h : replicaBlock modifiers vertices normal name size data = .ok blk) :
    ∃ rows : List (List JNum),
      seqExcept ((List.range vertices.length).map (fun k =>
        seqExcept ((List.range size).map (fun l =>
          bufferElement modifiers vertices normal name data k l)))) = .ok rows ∧
      blk = rows.flatten := by
  exact except_map_ok h

theorem rows_uniform {modifiers : String → Option ModifierF}
    {vertices : List Vec3} {normal : Option (List Vec3)} {name : String}
    {size : Nat} {data : Option (List ℚ)} {rows : List (List JNum)}
    (h : seqExcept ((List.range vertices.length).map (fun k =>
        seqExcept ((List.range size).map (fun l =>
          bufferElement modifiers vertices normal name data k l)))) = .ok rows) :
    ∀ r ∈ rows, r.length = size := by
  intro r hr
  obtain ⟨i, hi⟩ := List.mem_iff_getElem?.mp hr
  obtain ⟨e, he, hser⟩ := forall₂_getElem?_right (seqExcept_ok_forall₂ h) i r hi
  rw [List.getElem?_map] at he
  cases hrange : (List.range vertices.length)[i]? with
  | none => rw [hrange] at he; simp at he
  | some k =>
    rw [hrange] at he
    simp only [Option.map_some'] at he
    cases he
    have hlen := seqExcept_ok_length hser
    simp only [List.length_map, List.length_range] at hlen
    exact hlen

theorem replicaBlock_ok_length {modifiers : String → Option ModifierF}
    {vertices : List Vec3} {normal : Option (List Vec3)} {name : String}
    {size : Nat} {data : Option (List ℚ)} {blk : List JNum}
    (h : replicaBlock modifiers vertices normal name size data = .ok blk) :
    blk.length = vertices.length * size := by
  obtain ⟨rows, hrows, hblk⟩ := replicaBlock_ok_rows h
  have hlen := seqExcept_ok_length hrows
  simp only [List.length_map, List.length_range] at hlen
  rw [hblk, flatten_length_uniform size rows (rows_uniform hrows), hlen]

theorem replicaBlock_ok_get {modifiers : String → Option ModifierF}
    {vertices : List Vec3} {normal : Option (List Vec3)} {name : String}
    {size : Nat} {data : Option (List ℚ)} {blk : List JNum}
    (h : replicaBlock modifiers vertices normal name size data = .ok blk)
    (k l : Nat) (hk : k < vertices.length) (hl : l < size) :
    ∃ v, bufferElement modifiers vertices normal name data k l = .ok v ∧
      blk[k * size + l]? = some v := by
  obtain ⟨rows, hrows, hblk⟩ := replicaBlock_ok_rows h
  have hes : ((List.range vertices.length).map (fun k =>
      seqExcept ((List.range size).map (fun l =>
        bufferElement modifiers vertices normal name data k l))))[k]? =
      some (seqExcept ((List.range size).map (fun l =>
        bufferElement modifiers vertices normal name data k l))) := by
    rw [List.getElem?_map, List.getElem?_range hk]
    rfl
  obtain ⟨row, hrowk, hrowok⟩ := forall₂_getElem? (seqExcept_ok_forall₂ hrows) k _ hes
  have hes' : ((List.range size).map (fun l =>
      bufferElement modifiers vertices normal name data k l))[l]? =
      some (bufferElement modifiers vertices normal name data k l) := by
    rw [List.getElem?_map, List.getElem?_range hl]
    rfl
  obtain ⟨v, hvl, hv⟩ := forall₂_getElem? (seqExcept_ok_forall₂ hrowok) l _ hes'
  refine ⟨v, hv, ?_⟩
  rw [hblk, getElem?_flatten_uniform size rows (rows_uniform hrows) k l hl, hrowk]
  exact hvl

/-! ### Structure of a successful full compilation -/

theorem runReplicas_ok_parts {modifiers : String → Option ModifierF}
    {vertices : List Vec3} {normal : Option (List Vec3)}
    {attr : AttributeProps} {multiplier : Nat} :
    ∀ (js : List Nat) (buf : List JNum),
      (runReplicas modifiers vertices normal attr multiplier js).1 = .ok buf →
      ∃ blocks : List (List JNum),
        buf = blocks.flatten ∧ blocks.length = js.length ∧
        (∀ b ∈ blocks, b.length = vertices.length * attr.size) ∧
        (∀ (i j : Nat), js[i]? = some j →
          ∃ data blk, (replicaData attr.data j multiplier).1 = .ok data ∧
            replicaBlock modifiers vertices normal attr.name attr.size data = .ok blk ∧
            blocks[i]? = some blk) := by
  intro js
  induction js with
  | nil =>
    intro buf h
    simp only [runReplicas] at h
    cases h
    exact ⟨[], rfl, rfl, by simp, by intro i j hj; simp at hj⟩
  | cons j js ih =>
    intro buf h
    rw [runReplicas] at h
    split at h
    · simp at h
    · rename_i data ev hd
      split at h
      · simp at h
      · rename_i blk hb
        split at h
        · simp at h
        · rename_i tail evs hrest
          simp only [Except.ok.injEq] at h
          obtain ⟨blocks, htail, hlen, hunif, hidx⟩ :=
            ih tail (by rw [hrest])
          refine ⟨blk :: blocks, ?_, ?_, ?_, ?_⟩
          · rw [← h, htail]; rfl
          · simp [hlen]
          · intro b hb'
            rcases List.mem_cons.mp hb' with hb' | hb'
            · rw [hb']; exact replicaBlock_ok_length hb
            · exact hunif b hb'
          · intro i j' hj'
            cases i with
            | zero =>
              simp only [List.getElem?_cons_zero] at hj'
              cases hj'
              exact ⟨data, blk, by rw [hd], hb, by simp⟩
            | succ n =>
              simp only [List.getElem?_cons_succ] at hj' ⊢
              exact hidx n j' hj'

theorem runReplicas_ok_log {modifiers : String → Option ModifierF}
    {vertices : List Vec3} {normal : Option (List Vec3)}
    {attr : AttributeProps} {multiplier : Nat} :
    ∀ (js : List Nat) (buf : List JNum),
      (runReplicas modifiers vertices normal attr multiplier js).1 = .ok buf →
      (runReplicas modifiers vertices normal attr multiplier js).2 =
        (js.map (fun j => (replicaData attr.data j multiplier).2)).flatten := by
  intro js
  induction js with
  | nil => intro buf h; simp [runReplicas]
  | cons j js ih =>
    intro buf h
    rcases hdp : replicaData attr.data j multiplier with ⟨d, ev⟩
    cases d with
    | error u =>
      rw [runReplicas] at h
      simp only [hdp] at h
      simp at h
    | ok data =>
      cases hb : replicaBlock modifiers vertices normal attr.name attr.size data with
      | error u =>
        rw [runReplicas] at h
        simp only [hdp, hb] at h
        simp at h
      | ok blk =>
        rcases hrp : runReplicas modifiers vertices normal attr multiplier js with ⟨r, evs⟩
        cases r with
        | error u =>
          rw [runReplicas] at h
          simp only [hdp, hb, hrp] at h
          simp at h
        | ok tail =>
          have h2 := ih tail (by rw [hrp])
          rw [hrp] at h2
          simp only at h2
          rw [runReplicas]
          simp only [hdp, hb, hrp, List.map_cons, List.flatten_cons]
          rw [h2]

theorem flatten_singletons {α β : Type} (f : α → β) :
    ∀ (l : List α), (l.map (fun a => [f a])).flatten = l.map f := by
  intro l
  induction l with
  | nil => simp
  | cons a l ih => simp [ih]

/-- The length of a successfully compiled attribute buffer. -/
theorem compiled_length {modifiers : String → Option ModifierF}
    {vertices : List Vec3} {normal : Option (List Vec3)}
    {attr : AttributeProps} {multiplier : Nat} {buf : List JNum}
    (h : attributeBufferData modifiers vertices normal attr multiplier = .ok buf) :
    buf.length = multiplier * vertices.length * attr.size := by
  obtain ⟨blocks, hbuf, hlen, hunif, _⟩ := runReplicas_ok_parts _ buf h
  have hblen : blocks.length = multiplier := by rw [hlen, List.length_range]
  rw [hbuf, flatten_length_uniform (vertices.length * attr.size) blocks hunif, hblen]
  ring

/-- The element of a successfully compiled attribute buffer at the flat
index of replica m, vertex k, component l. -/
theorem compiled_element {modifiers : String → Option ModifierF}
    {vertices : List Vec3} {normal : Option (List Vec3)}
    {attr : AttributeProps} {multiplier : Nat} {buf : List JNum}
    (h : attributeBufferData modifiers vertices normal attr multiplier = .ok buf)
    {m k l : Nat} (hm : m < multiplier) (hk : k < vertices.length)
    (hl : l < attr.size) :
    ∃ data v, (replicaData attr.data m multiplier).1 = .ok data ∧
      bufferElement modifiers vertices normal attr.name data k l = .ok v ∧
      buf[m * vertices.length * attr.size + k * attr.size + l]? = some v := by
  obtain ⟨blocks, hbuf, hlen, hunif, hidx⟩ := runReplicas_ok_parts _ buf h
  obtain ⟨data, blk, hd, hb, hblk⟩ := hidx m m (by rw [List.getElem?_range hm])
  obtain ⟨v, hv, hvget⟩ := replicaBlock_ok_get hb k l hk hl
  refine ⟨data, v, hd, hv, ?_⟩
  have hlt : k * attr.size + l < vertices.length * attr.size := by
    have h1 : k * attr.size + l < (k + 1) * attr.size := by
      rw [Nat.succ_mul]; omega
    exact lt_of_lt_of_le h1 (Nat.mul_le_mul_right attr.size hk)
  have harith : m * vertices.length * attr.size + k * attr.size + l
      = m * (vertices.length * attr.size) + (k * attr.size + l) := by ring
  rw [hbuf, harith,
    getElem?_flatten_uniform (vertices.length * attr.size) blocks hunif m _ hlt,
    hblk]
  exact hvget

/-- C1: for every attribute compiled by Instance.prepareAttribute with
component size S ∈ {1,2,3,4}, against geometry with vertex count N ≥ 1 and
multiplier M ≥ 1, the compiled buffer has exactly M * N * S elements, and
the element for replica m, vertex k, component l (the value selected by the
modifier / reserved-channel / generator precedence, with the generator
evaluated once for replica m) is written at flat index
m*N*S + k*S + l — replica-major, then vertex-major, then component-minor. -/
theorem C1_buffer_length_and_layout
    (modifiers : String → Option ModifierF) (vertices : List Vec3)
    (normal : Option (List Vec3)) (attr : AttributeProps) (multiplier : Nat)
    (buf : List JNum)
    (hM : 1 ≤ multiplier) (hN : 1 ≤ vertices.length)
    (hS : attr.size = 1 ∨ attr.size = 2 ∨ attr.size = 3 ∨ attr.size = 4)
    (h : attributeBufferData modifiers vertices normal attr multiplier = .ok buf) :
    buf.length = multiplier * vertices.length * attr.size ∧
    ∀ m k l, m < multiplier → k < vertices.length → l < attr.size →
      ∃ data v, (replicaData attr.data m multiplier).1 = .ok data ∧
        bufferElement modifiers vertices normal attr.name data k l = .ok v ∧
        buf[m * vertices.length * attr.size + k * attr.size + l]? = some v := by
  exact ⟨compiled_length h, fun m k l hm hk hl => compiled_element h hm hk hl⟩

/-- Witness for C1 at a concrete input: one vertex, multiplier 1, a size-1
attribute with a constant generator. -/
theorem C1_buffer_length_and_layout_witness :
    ([some (5 : ℚ)] : List JNum).length = 1 * 1 * 1 ∧
    ∀ m k l, m < 1 → k < 1 → l < 1 →
      ∃ data v,
        (replicaData (AttrData.gen (fun _ _ => [(5 : ℚ)])) m 1).1 = .ok data ∧
        bufferElement (fun _ => none) [⟨0, 0, 0⟩] none "a" data k l = .ok v ∧
        ([some (5 : ℚ)] : List JNum)[m * 1 * 1 + k * 1 + l]? = some v :=
  C1_buffer_length_and_layout (fun _ => none) [⟨0, 0, 0⟩] none
    ⟨"a", 1, .gen (fun _ _ => [(5 : ℚ)])⟩ 1 [some 5]
    (by decide) (by decide) (Or.inl rfl) rfl

/-- The C2 scenario: multiplier 3, one vertex, one non-reserved size-1
attribute "offset" whose generator is i ↦ [i * 0.5]. -/
theorem scenario_offset_compile :
    attributeBufferData (fun _ => none) [⟨0, 0, 0⟩] none
      ⟨"offset", 1, .gen (fun i _ => [(i : ℚ) * (1 / 2)])⟩ 3 =
      .ok [some 0, some (1 / 2), some 1] := by
  have hr : List.range 3 = [0, 1, 2] := by decide
  have hr1 : List.range 1 = [0] := by decide
  simp only [attributeBufferData, hr, hr1, runReplicas, replicaData, replicaBlock,
    bufferElement, seqExcept, List.map_cons, List.map_nil, List.length_cons,
    List.length_nil]
  norm_num [vecCoord]
  simp +decide [Except.map]

/-- C2: during attribute compilation the generator is invoked exactly once
per replica with arguments (m, M) — not once per vertex; each buffer element
is selected by the precedence: a registered modifier for the attribute's
name always wins, else the reserved aPosition channel reads the vertex's
l-th coordinate, else the reserved aNormal channel reads the normal's l-th
coordinate, else the element is generatorOutput[l]; and for multiplier 3,
one vertex, one non-reserved attribute "offset" of size 1 with generator
i ↦ [i * 0.5], the compiled buffer is [0.0, 0.5, 1.0]. -/
theorem C2_generator_once_and_precedence :
    (∀ (modifiers : String → Option ModifierF) (vertices : List Vec3)
        (normal : Option (List Vec3)) (attr : AttributeProps) (multiplier : Nat)
        (buf : List JNum) (g : Nat → Nat → List ℚ),
        attr.data = .gen g →
        attributeBufferData modifiers vertices normal attr multiplier = .ok buf →
        generatorCallLog modifiers vertices normal attr multiplier =
          (List.range multiplier).map (fun m => (m, multiplier))) ∧
    (∀ (modifiers : String → Option ModifierF) (vertices : List Vec3)
        (normal : Option (List Vec3)) (attr : AttributeProps) (multiplier : Nat)
        (buf : List JNum) (f : ModifierF) (m k l : Nat),
        modifiers attr.name = some f →
        m < multiplier → k < vertices.length → l < attr.size →
        attributeBufferData modifiers vertices normal attr multiplier = .ok buf →
        ∃ data, (replicaData attr.data m multiplier).1 = .ok data ∧
          buf[m * vertices.length * attr.size + k * attr.size + l]? =
            some (some (f data k l))) ∧
    (∀ (modifiers : String → Option ModifierF) (vertices : List Vec3)
        (normal : Option (List Vec3)) (attr : AttributeProps) (multiplier : Nat)
        (buf : List JNum) (m k l : Nat),
        modifiers attr.name = none → attr.name = "aPosition" →
        m < multiplier → k < vertices.length → l < attr.size →
        attributeBufferData modifiers vertices normal attr multiplier = .ok buf →
        ∃ v, vertices[k]? = some v ∧
          buf[m * vertices.length * attr.size + k * attr.size + l]? =
            some (vecCoord v l)) ∧
    (∀ (modifiers : String → Option ModifierF) (vertices : List Vec3)
        (ns : List Vec3) (attr : AttributeProps) (multiplier : Nat)
        (buf : List JNum) (m k l : Nat),
        modifiers attr.name = none → attr.name = "aNormal" →
        m < multiplier → k < vertices.length → l < attr.size →
        attributeBufferData modifiers vertices (some ns) attr multiplier = .ok buf →
        ∃ v, ns[k]? = some v ∧
          buf[m * vertices.length * attr.size + k * attr.size + l]? =
            some (vecCoord v l)) ∧
    (∀ (modifiers : String → Option ModifierF) (vertices : List Vec3)
        (normal : Option (List Vec3)) (attr : AttributeProps) (multiplier : Nat)
        (buf : List JNum) (g : Nat → Nat → List ℚ) (m k l : Nat),
        modifiers attr.name = none → attr.name ≠ "aPosition" →
        attr.name ≠ "aNormal" → attr.data = .gen g →
        m < multiplier → k < vertices.length → l < attr.size →
        attributeBufferData modifiers vertices normal attr multiplier = .ok buf →
        buf[m * vertices.length * attr.size + k * attr.size + l]? =
          some ((g m multiplier)[l]?)) ∧
    attributeBufferData (fun _ => none) [⟨0, 0, 0⟩] none
      ⟨"offset", 1, .gen (fun i _ => [(i : ℚ) * (1 / 2)])⟩ 3 =
      .ok [some 0, some (1 / 2), some 1] := by
  refine ⟨?_, ?_, ?_, ?_, ?_, scenario_offset_compile⟩
  · intro modifiers vertices normal attr multiplier buf g hg h
    have hlog := runReplicas_ok_log (List.range multiplier) buf h
    rw [generatorCallLog, hlog]
    have hev : ∀ j : Nat, (replicaData attr.data j multiplier).2 = [(j, multiplier)] := by
      intro j; rw [hg]; rfl
    calc ((List.range multiplier).map
          (fun j => (replicaData attr.data j multiplier).2)).flatten
        = ((List.range multiplier).map (fun j => [(j, multiplier)])).flatten := by
          congr 1
          exact List.map_congr_left (fun j _ => hev j)
      _ = (List.range multiplier).map (fun m => (m, multiplier)) :=
          flatten_singletons _ _
  · intro modifiers vertices normal attr multiplier buf f m k l hmod hm hk hl h
    obtain ⟨data, v, hd, hv, hget⟩ := compiled_element h hm hk hl
    simp only [bufferElement, hmod, Except.ok.injEq] at hv
    exact ⟨data, hd, by rw [hget, ← hv]⟩
  · intro modifiers vertices normal attr multiplier buf m k l hmod hname hm hk hl h
    obtain ⟨data, v, hd, hv, hget⟩ := compiled_element h hm hk hl
    rw [bufferElement.eq_def, hmod, hname, List.getElem?_eq_getElem hk] at hv
    simp only [reduceIte, Except.ok.injEq] at hv
    exact ⟨vertices[k], List.getElem?_eq_getElem hk, by rw [hget, ← hv]⟩
  · intro modifiers vertices ns attr multiplier buf m k l hmod hname hm hk hl h
    obtain ⟨data, v, hd, hv, hget⟩ := compiled_element h hm hk hl
    rw [bufferElement.eq_def, hmod, hname] at hv
    simp only [String.reduceEq, reduceIte] at hv
    cases hns : ns[k]? with
    | none => rw [hns] at hv; cases hv
    | some w =>
      rw [hns] at hv
      simp only [Except.ok.injEq] at hv
      exact ⟨w, rfl, by rw [hget, ← hv]⟩
  · intro modifiers vertices normal attr multiplier buf g m k l hmod hp hn hg hm hk hl h
    obtain ⟨data, v, hd, hv, hget⟩ := compiled_element h hm hk hl
    rw [hg] at hd
    simp only [replicaData, Except.ok.injEq] at hd
    subst hd
    rw [bufferElement.eq_def, hmod] at hv
    simp only [if_neg hp, if_neg hn, Except.ok.injEq] at hv
    rw [hget, ← hv]

/-- Witness for C2 at concrete inputs exercising the generator-call log and
each precedence branch. -/
theorem C2_generator_once_and_precedence_witness :
    generatorCallLog (fun _ => none) [⟨0, 0, 0⟩] none
        ⟨"offset", 1, .gen (fun i _ => [(i : ℚ) * (1 / 2)])⟩ 3 =
      [(0, 3), (1, 3), (2, 3)] ∧
    (∃ data, (replicaData AttrData.noData 0 1).1 = .ok data ∧
      ([some (7 : ℚ)] : List JNum)[0]? = some (some (7 : ℚ))) ∧
    (∃ v, ([⟨1, 2, 3⟩] : List Vec3)[0]? = some v ∧
      ([some 1, some 2, some 3] : List JNum)[1]? = some (vecCoord v 1)) ∧
    (∃ v, ([⟨4, 5, 6⟩] : List Vec3)[0]? = some v ∧
      ([some 4, some 5, some 6] : List JNum)[2]? = some (vecCoord v 2)) ∧
    ([some (5 : ℚ)] : List JNum)[0]? = some (([(5 : ℚ)])[0]?) := by
  refine ⟨?_, ?_, ?_, ?_, ?_⟩
  · exact C2_generator_once_and_precedence.1 (fun _ => none) [⟨0, 0, 0⟩] none
      ⟨"offset", 1, .gen (fun i _ => [(i : ℚ) * (1 / 2)])⟩ 3
      [some 0, some (1 / 2), some 1] _ rfl scenario_offset_compile
  · exact C2_generator_once_and_precedence.2.1 (fun _ => some (fun _ _ _ => (7 : ℚ)))
      [⟨0, 0, 0⟩] none ⟨"a", 1, .noData⟩ 1 [some 7] (fun _ _ _ => (7 : ℚ)) 0 0 0
      rfl (by decide) (by decide) (by decide) rfl
  · exact C2_generator_once_and_precedence.2.2.1 (fun _ => none)
      [⟨1, 2, 3⟩] none ⟨"aPosition", 3, .noData⟩ 1 [some 1, some 2, some 3] 0 0 1
      rfl rfl (by decide) (by decide) (by decide) rfl
  · exact C2_generator_once_and_precedence.2.2.2.1 (fun _ => none)
      [⟨0, 0, 0⟩] [⟨4, 5, 6⟩] ⟨"aNormal", 3, .noData⟩ 1 [some 4, some 5, some 6] 0 0 2
      rfl rfl (by decide) (by decide) (by decide) rfl
  · exact C2_generator_once_and_precedence.2.2.2.2.1 (fun _ => none)
      [⟨0, 0, 0⟩] none ⟨"a", 1, .gen (fun _ _ => [(5 : ℚ)])⟩ 1 [some 5]
      (fun _ _ => [(5 : ℚ)]) 0 0 0 rfl (by decide) (by decide) rfl
      (by decide) (by decide) (by decide) rfl

theorem seqExcept_range_rows {α β : Type} (F : α → β) :
    ∀ (src : List α) (row : Nat → Except Unit β),
      (∀ k v, src[k]? = some v → row k = .ok (F v)) →
      seqExcept ((List.range src.length).map row) = .ok (src.map F) := by
  intro src
  induction src with
  | nil => intro row _; simp [seqExcept]
  | cons v rest ih =>
    intro row hrow
    have h0 : row 0 = .ok (F v) := hrow 0 v (by simp)
    have hrec := ih (row ∘ Nat.succ) (fun k w hw => hrow (k + 1) w (by simpa using hw))
    rw [List.length_cons, List.range_succ_eq_map, List.map_cons, List.map_map]
    simp only [seqExcept, h0, hrec, List.map_cons]

/-- A reserved aPosition attribute with no modifier compiles one replica
block to the vertex coordinates, componentwise, whatever the generator
data is. -/
theorem replicaBlock_aPosition {modifiers : String → Option ModifierF}
    (vertices : List Vec3) (normal : Option (List Vec3))
    (data : Option (List ℚ)) (hmod : modifiers "aPosition" = none) :
    replicaBlock modifiers vertices normal "aPosition" 3 data =
      .ok ((vertices.map fun v => [some v.x, some v.y, some v.z]).flatten) := by
  rw [replicaBlock]
  rw [seqExcept_range_rows (fun v : Vec3 => [some v.x, some v.y, some v.z])
    vertices _ ?_]
  · rfl
  · intro k v hkv
    have helem : ∀ l, bufferElement modifiers vertices normal "aPosition" data k l =
        .ok (vecCoord v l) := by
      intro l
      rw [bufferElement.eq_def, hmod]
      simp only [String.reduceEq, reduceIte, hkv]
    have hr3 : List.range 3 = [0, 1, 2] := by decide
    rw [hr3]
    simp [helem 0, helem 1, helem 2, seqExcept, vecCoord]

/-- A reserved aNormal attribute with no modifier compiles one replica
block to the normal coordinates, componentwise, when the normals list has
the same length as the vertex list. -/
theorem replicaBlock_aNormal {modifiers : String → Option ModifierF}
    (vertices ns : List Vec3) (data : Option (List ℚ))
    (hmod : modifiers "aNormal" = none) (hlen : ns.length = vertices.length) :
    replicaBlock modifiers vertices (some ns) "aNormal" 3 data =
      .ok ((ns.map fun v => [some v.x, some v.y, some v.z]).flatten) := by
  rw [replicaBlock, ← hlen]
  rw [seqExcept_range_rows (fun v : Vec3 => [some v.x, some v.y, some v.z])
    ns _ ?_]
  · rfl
  · intro k v hkv
    have helem : ∀ l, bufferElement modifiers vertices (some ns) "aNormal" data k l =
        .ok (vecCoord v l) := by
      intro l
      rw [bufferElement.eq_def, hmod]
      simp only [String.reduceEq, reduceIte, hkv]
    have hr3 : List.range 3 = [0, 1, 2] := by decide
    rw [hr3]
    simp [helem 0, helem 1, helem 2, seqExcept, vecCoord]

/-- When every replica block compiles to the same list B (and the data
field is absent or a generator), the whole compilation is B repeated, one
copy per replica. -/
theorem runReplicas_const {modifiers : String → Option ModifierF}
    {vertices : List Vec3} {normal : Option (List Vec3)} {name : String}
    {size : Nat} {d : AttrData} {multiplier : Nat} {B : List JNum}
    (hd : d = .noData ∨ ∃ g, d = .gen g)
    (hB : ∀ data, replicaBlock modifiers vertices normal name size data = .ok B) :
    ∀ js : List Nat,
      (runReplicas modifiers vertices normal ⟨name, size, d⟩ multiplier js).1 =
        .ok ((js.map fun _ => B).flatten) := by
  intro js
  induction js with
  | nil => simp [runReplicas]
  | cons j js ih =>
    rcases hr : runReplicas modifiers vertices normal ⟨name, size, d⟩ multiplier js
      with ⟨r, evs⟩
    rw [hr] at ih
    simp only at ih
    subst ih
    rcases hd with hd | ⟨g, hd⟩ <;> subst hd <;>
      · rw [runReplicas]
        simp only [replicaData, hB, hr, List.map_cons, List.flatten_cons]

/-- C3: a reserved position or normal attribute with no modifier compiles,
for any geometry and multiplier M ≥ 0, to the geometry's component values
verbatim, the identical N*3 vertex block repeated once per replica; and for
geometry with vertices (0,0,0), (1,0,0) and multiplier 2 the compiled
position buffer is [0,0,0, 1,0,0, 0,0,0, 1,0,0]. -/
theorem C3_reserved_verbatim_repeated :
    (∀ (modifiers : String → Option ModifierF) (vertices : List Vec3)
        (normal : Option (List Vec3)) (d : AttrData) (multiplier : Nat),
        modifiers "aPosition" = none → (d = .noData ∨ ∃ g, d = .gen g) →
        attributeBufferData modifiers vertices normal ⟨"aPosition", 3, d⟩ multiplier =
          .ok ((List.replicate multiplier
            ((vertices.map fun v => [some v.x, some v.y, some v.z]).flatten)).flatten)) ∧
    (∀ (modifiers : String → Option ModifierF) (vertices ns : List Vec3)
        (d : AttrData) (multiplier : Nat),
        modifiers "aNormal" = none → (d = .noData ∨ ∃ g, d = .gen g) →
        ns.length = vertices.length →
        attributeBufferData modifiers vertices (some ns) ⟨"aNormal", 3, d⟩ multiplier =
          .ok ((List.replicate multiplier
            ((ns.map fun v => [some v.x, some v.y, some v.z]).flatten)).flatten)) ∧
    attributeBufferData (fun _ => none) [⟨0, 0, 0⟩, ⟨1, 0, 0⟩] none
        ⟨"aPosition", 3, .noData⟩ 2 =
      .ok [some 0, some 0, some 0, some 1, some 0, some 0,
           some 0, some 0, some 0, some 1, some 0, some 0] := by
  have hmapconst : ∀ (n : Nat) (B : List JNum),
      ((List.range n).map fun _ => B) = List.replicate n B := by
    intro n B
    induction n with
    | zero => simp
    | succ m ih =>
      rw [List.range_succ, List.map_append, ih, List.replicate_succ']
      simp
  refine ⟨?_, ?_, ?_⟩
  · intro modifiers vertices normal d multiplier hmod hd
    rw [attributeBufferData,
      runReplicas_const hd (fun data => replicaBlock_aPosition vertices normal data hmod),
      hmapconst]
  · intro modifiers vertices ns d multiplier hmod hd hlen
    rw [attributeBufferData,
      runReplicas_const hd (fun data => replicaBlock_aNormal vertices ns data hmod hlen),
      hmapconst]
  · rfl

/-- Witness for C3: a position geometry and a normal geometry at concrete
coordinates. -/
theorem C3_reserved_verbatim_repeated_witness :
    attributeBufferData (fun _ => none) [⟨1, 2, 3⟩] none
        ⟨"aPosition", 3, .noData⟩ 1 =
      .ok [some 1, some 2, some 3] ∧
    attributeBufferData (fun _ => none) [⟨0, 0, 0⟩] (some [⟨4, 5, 6⟩])
        ⟨"aNormal", 3, .noData⟩ 2 =
      .ok [some 4, some 5, some 6, some 4, some 5, some 6] := by
  constructor
  · exact C3_reserved_verbatim_repeated.1 (fun _ => none) [⟨1, 2, 3⟩] none
      .noData 1 rfl (Or.inl rfl)
  · exact C3_reserved_verbatim_repeated.2.1 (fun _ => none) [⟨0, 0, 0⟩] [⟨4, 5, 6⟩]
      .noData 2 rfl (Or.inl rfl) rfl

/-! ### Instance attribute/buffer state and prepareAttribute -/

/-- A stored attribute of an instance (an entry of this.attributes). -/
structure InstAttr where
  name : String
  size : Nat
  data : AttrData

/-- The record stored into this.buffers by prepareBuffer: the buffer
handle from gl.createBuffer, the attribute location resolved by
gl.getAttribLocation, and the component size passed to
gl.vertexAttribPointer. -/
structure BufferProps where
  location : Int
  buffer : Nat
  size : Nat
deriving DecidableEq

/-- Assignment arr[i] = a on a JavaScript array: in-range indices are
overwritten, out-of-range indices extend the array, leaving holes
(modelled as none) in between. -/
def setPad {α : Type} (l : List (Option α)) (i : Nat) (a : α) : List (Option α) :=
  if i < l.length then l.set i (some a)
  else (l ++ List.replicate (i - l.length) none) ++ [some a]

/-- Reading arr[i] from a JavaScript array: a hole or an out-of-range
index reads as undefined (none). -/
def arrGet {α : Type} (l : List (Option α)) (i : Nat) : Option α :=
  (l[i]?).join

/-- The state of an Instance read and written by prepareAttribute:
the modifiers table, the geometry, the multiplier, the stored attribute
descriptors and their keys, the buffer records, the attribute-location
lookup of the linked program (gl.getAttribLocation), and the next fresh
buffer handle gl.createBuffer will return. -/
structure InstState where
  modifiers : String → Option ModifierF
  vertices : List Vec3
  normal : Option (List Vec3)
  multiplier : Nat
  attributes : List InstAttr
  attributeKeys : List String
  buffers : List (Option BufferProps)
  locOf : String → Int
  nextBufferId : Nat

/-- Instance.prepareBuffer: create a fresh buffer handle, upload the
attribute's data, resolve the attribute location and store the buffer
record at the index of the attribute's name in attributeKeys (an absent
name makes indexOf yield -1, and buffers[-1] = ... is a plain property
assignment that does not touch any array slot). -/
def prepareBuffer (st : InstState) (a : InstAttr) : InstState :=
  match st.attributeKeys.indexOf? a.name with
  | some idx =>
    { st with
      buffers := setPad st.buffers idx ⟨st.locOf a.name, st.nextBufferId, a.size⟩
      nextBufferId := st.nextBufferId + 1 }
  | none => { st with nextBufferId := st.nextBufferId + 1 }

/-- Instance.prepareAttribute: compile the descriptor's buffer, store it
into the data field of the stored attribute with the same name, and
re-upload that attribute's buffer.  If the name is not in attributeKeys,
indexOf yields -1 and this.attributes[-1].data throws. -/
def prepareAttribute (st : InstState) (a : AttributeProps) : Except Unit InstState :=
  match attributeBufferData st.modifiers st.vertices st.normal a st.multiplier with
  | .error u => .error u
  | .ok buf =>
    match st.attributeKeys.indexOf? a.name with
    | none => .error ()
    | some idx =>
      match st.attributes[idx]? with
      | none => .error ()
      | some stored =>
        let stored' : InstAttr := { stored with data := AttrData.buf buf }
        let st1 := { st with attributes := st.attributes.set idx stored' }
        .ok (prepareBuffer st1 stored')

theorem arrGet_setPad_ne {α : Type} (l : List (Option α)) (i j : Nat) (a : α)
    (hij : j ≠ i) : arrGet (setPad l i a) j = arrGet l j := by
  rw [setPad]
  split
  · rw [arrGet, arrGet, List.getElem?_set_ne (fun h => hij h.symm)]
  · rename_i hge
    rcases Nat.lt_or_ge j l.length with hj | hj
    · rw [arrGet, arrGet, List.getElem?_append_left, List.getElem?_append_left hj]
      rw [List.length_append, List.length_replicate]
      omega
    · rcases Nat.lt_or_ge j i with hji | hji
      · rw [arrGet, arrGet, List.getElem?_append_left, List.getElem?_append_right hj]
        · rw [List.getElem?_replicate]
          rw [if_pos (by omega)]
          rw [List.getElem?_eq_none hj]
          rfl
        · rw [List.length_append, List.length_replicate]
          omega
      · have hji' : i < j := by omega
        rw [arrGet, arrGet, List.getElem?_eq_none, List.getElem?_eq_none hj]
        simp only [List.length_append, List.length_replicate, List.length_cons,
          List.length_nil]
        omega

theorem arrGet_setPad_eq {α : Type} (l : List (Option α)) (i : Nat) (a : α) :
    arrGet (setPad l i a) i = some a := by
  rw [setPad]
  split
  · rename_i hlt
    rw [arrGet, List.getElem?_set_self]
    · rfl
    · exact hlt
  · rename_i hge
    have hlen : (l ++ List.replicate (i - l.length) none).length = i := by
      rw [List.length_append, List.length_replicate]
      omega
    rw [arrGet, List.getElem?_append_right (by omega), hlen, Nat.sub_self]
    rfl

theorem findIdx?_getElem? {α : Type} (p : α → Bool) :
    ∀ (l : List α) (i : Nat), l.findIdx? p = some i →
      ∃ a, l[i]? = some a ∧ p a := by
  intro l
  induction l with
  | nil => intro i h; simp [List.findIdx?_nil] at h
  | cons x xs ih =>
    intro i h
    rw [List.findIdx?_cons] at h
    by_cases hp : p x
    · rw [if_pos hp] at h
      cases h
      exact ⟨x, by simp, hp⟩
    · rw [if_neg hp, List.findIdx?_succ] at h
      cases hxs : xs.findIdx? p with
      | none => rw [hxs] at h; cases h
      | some i' =>
        rw [hxs] at h
        simp only [Option.map_some', Option.some.injEq] at h
        subst h
        obtain ⟨a, ha, hpa⟩ := ih i' hxs
        exact ⟨a, by simpa using ha, hpa⟩

theorem indexOf?_getElem? (l : List String) (a : String) (i : Nat)
    (h : l.indexOf? a = some i) : l[i]? = some a := by
  obtain ⟨b, hb, hba⟩ := findIdx?_getElem? (fun x => x == a) l i h
  rw [hb, beq_iff_eq.mp hba]

theorem prepareBuffer_spec (st : InstState) (a : InstAttr) (i : Nat)
    (hidx : st.attributeKeys.indexOf? a.name = some i) :
    prepareBuffer st a =
      { st with
        buffers := setPad st.buffers i ⟨st.locOf a.name, st.nextBufferId, a.size⟩
        nextBufferId := st.nextBufferId + 1 } := by
  rw [prepareBuffer.eq_def, hidx]

/-- C5: prepareAttribute for a descriptor named X (present among the
instance's attribute keys, with keys and stored attribute names in sync as
the constructor establishes) recompiles and re-uploads only attribute X's
stored data and buffer record: every other attribute's stored descriptor
and buffer record are identical before and after, and the geometry,
modifiers, multiplier and keys are untouched. -/
theorem C5_prepareAttribute_targets_only_named
    (st : InstState) (a : AttributeProps) (st' : InstState) (i : Nat)
    (hsync : ∀ (j : Nat) (s : InstAttr),
      st.attributes[j]? = some s → st.attributeKeys[j]? = some s.name)
    (hidx : st.attributeKeys.indexOf? a.name = some i)
    (h : prepareAttribute st a = .ok st') :
    (∀ j, j ≠ i → st'.attributes[j]? = st.attributes[j]?) ∧
    (∀ j, j ≠ i → arrGet st'.buffers j = arrGet st.buffers j) ∧
    st'.attributeKeys = st.attributeKeys ∧
    st'.modifiers = st.modifiers ∧ st'.vertices = st.vertices ∧
    st'.normal = st.normal ∧ st'.multiplier = st.multiplier ∧
    (∃ buf stored,
      attributeBufferData st.modifiers st.vertices st.normal a st.multiplier = .ok buf ∧
      st.attributes[i]? = some stored ∧
      st'.attributes[i]? = some { stored with data := AttrData.buf buf } ∧
      arrGet st'.buffers i = some ⟨st.locOf a.name, st.nextBufferId, stored.size⟩) := by
  rw [prepareAttribute] at h
  split at h
  · exact Except.noConfusion h
  · rename_i buf hc
    split at h
    · exact Except.noConfusion h
    · rename_i idx hidx2
      rw [hidx] at hidx2
      cases hidx2
      split at h
      · exact Except.noConfusion h
      · rename_i stored hs
        simp only [Except.ok.injEq] at h
        have hname : stored.name = a.name := by
          have h1 := hsync i stored hs
          have h2 := indexOf?_getElem? _ _ _ hidx
          rw [h1] at h2
          exact (Option.some.injEq _ _).mp h2
        have hilen : i < st.attributes.length := by
          by_contra hcon
          rw [List.getElem?_eq_none (Nat.le_of_not_lt hcon)] at hs
          cases hs
        have hpb := prepareBuffer_spec
          { st with attributes :=
              st.attributes.set i { stored with data := AttrData.buf buf } }
          { stored with data := AttrData.buf buf } i (by
            show st.attributeKeys.indexOf? stored.name = some i
            rw [hname, hidx])
        rw [hpb] at h
        subst h
        refine ⟨?_, ?_, rfl, rfl, rfl, rfl, rfl, buf, stored, hc, hs, ?_, ?_⟩
        · intro j hj
          exact List.getElem?_set_ne (fun hji => hj hji.symm)
        · intro j hj
          exact arrGet_setPad_ne _ _ _ _ hj
        · show (st.attributes.set i { stored with data := AttrData.buf buf })[i]? = _
          exact List.getElem?_set_self hilen
        · rw [← hname]
          show arrGet (setPad st.buffers i
            ⟨st.locOf stored.name, st.nextBufferId, stored.size⟩) i = _
          exact arrGet_setPad_eq _ _ _

/-- A concrete instance state for the C5 witness: a reserved position
attribute and a user attribute "off", both with stored buffer records. -/
def exInst : InstState where
  modifiers := fun _ => none
  vertices := [⟨0, 0, 0⟩]
  normal := none
  multiplier := 1
  attributes := [⟨"aPosition", 3, .noData⟩, ⟨"off", 1, .gen (fun _ _ => [(5 : ℚ)])⟩]
  attributeKeys := ["aPosition", "off"]
  buffers := [some ⟨0, 0, 3⟩, some ⟨1, 1, 1⟩]
  locOf := fun _ => 2
  nextBufferId := 7

/-- exInst after prepareAttribute for a fresh "off" descriptor whose
generator returns [9]. -/
def exInst' : InstState where
  modifiers := fun _ => none
  vertices := [⟨0, 0, 0⟩]
  normal := none
  multiplier := 1
  attributes := [⟨"aPosition", 3, .noData⟩, ⟨"off", 1, .buf [some 9]⟩]
  attributeKeys := ["aPosition", "off"]
  buffers := [some ⟨0, 0, 3⟩, some ⟨2, 7, 1⟩]
  locOf := fun _ => 2
  nextBufferId := 8

/-- Witness for C5 at the concrete instance state exInst. -/
theorem C5_prepareAttribute_targets_only_named_witness :
    (∀ j, j ≠ 1 → exInst'.attributes[j]? = exInst.attributes[j]?) ∧
    (∀ j, j ≠ 1 → arrGet exInst'.buffers j = arrGet exInst.buffers j) ∧
    exInst'.attributeKeys = exInst.attributeKeys ∧
    exInst'.modifiers = exInst.modifiers ∧ exInst'.vertices = exInst.vertices ∧
    exInst'.normal = exInst.normal ∧ exInst'.multiplier = exInst.multiplier ∧
    (∃ buf stored,
      attributeBufferData exInst.modifiers exInst.vertices exInst.normal
        ⟨"off", 1, .gen (fun _ _ => [(9 : ℚ)])⟩ exInst.multiplier = .ok buf ∧
      exInst.attributes[1]? = some stored ∧
      exInst'.attributes[1]? = some { stored with data := AttrData.buf buf } ∧
      arrGet exInst'.buffers 1 =
        some ⟨exInst.locOf "off", exInst.nextBufferId, stored.size⟩) :=
  C5_prepareAttribute_targets_only_named exInst
    ⟨"off", 1, .gen (fun _ _ => [(9 : ℚ)])⟩ exInst' 1
    (by
      intro j s hj
      rcases j with _ | _ | j
      · injection hj with h2
        rw [← h2]
        rfl
      · injection hj with h2
        rw [← h2]
        rfl
      · cases hj)
    rfl rfl

/-! ### Uniforms: the render-time merge and the add-time seeding -/

/-- An entry of a uniform dictionary (interface UniformProps): the type
tag, a reference into the heap of value arrays (a JavaScript object holds
its value array by reference), and the resolved binding handle. -/
structure UniformE where
  type : String
  valueRef : Nat
  location : Option Nat
deriving DecidableEq

/-- A uniform dictionary: keys in insertion order, each with its entry. -/
abbrev UniformDict := List (String × UniformE)

/-- The heap of uniform value arrays; an entry's valueRef indexes it. -/
abbrev Heap := List (List ℚ)

/-- uniforms[key].value = r: overwrite the value reference of the entry
with the given key, leaving its type and binding handle alone; none when
the key is absent (uniforms[key] is undefined, so the assignment
throws). -/
def updValue : UniformDict → String → Nat → Option UniformDict
  | [], _, _ => none
  | (k, e) :: rest, key, r =>
    if k = key then some ((k, { e with valueRef := r }) :: rest)
    else (updValue rest key r).map ((k, e) :: ·)

/-- The uniform-update step of Instance.render (the only writes render
performs on the uniform dictionary): for each key of the shared uniforms,
in order, overwrite the value of the instance's matching entry. -/
def mergeShared : UniformDict → UniformDict → Except Unit UniformDict
  | [], mine => .ok mine
  | (k, e) :: rest, mine =>
    match updValue mine k e.valueRef with
    | none => .error ()
    | some mine' => mergeShared rest mine'

theorem updValue_lookup_self :
    ∀ {m : UniformDict} {key : String} {r : Nat} {m' : UniformDict},
      updValue m key r = some m' →
      List.lookup key m' = (List.lookup key m).map (fun e => { e with valueRef := r }) := by
  intro m
  induction m with
  | nil => intro key r m' h; cases h
  | cons p rest ih =>
    intro key r m' h
    obtain ⟨k, e⟩ := p
    rw [updValue] at h
    by_cases hk : k = key
    · rw [if_pos hk] at h
      cases h
      subst hk
      simp [List.lookup]
    · rw [if_neg hk] at h
      cases hup : updValue rest key r with
      | none => rw [hup] at h; cases h
      | some rest' =>
        rw [hup] at h
        cases h
        have hbeq : (key == k) = false := by
          simp [beq_iff_eq]
          exact fun hc => hk hc.symm
        simp only [List.lookup, hbeq]
        exact ih hup

theorem updValue_lookup_ne :
    ∀ {m : UniformDict} {key : String} {r : Nat} {m' : UniformDict} {k' : String},
      k' ≠ key → updValue m key r = some m' →
      List.lookup k' m' = List.lookup k' m := by
  intro m
  induction m with
  | nil => intro key r m' k' _ h; cases h
  | cons p rest ih =>
    intro key r m' k' hne h
    obtain ⟨k, e⟩ := p
    rw [updValue] at h
    by_cases hk : k = key
    · rw [if_pos hk] at h
      cases h
      subst hk
      have hbeq : (k' == k) = false := by
        simp [beq_iff_eq]
        exact hne
      simp only [List.lookup, hbeq]
    · rw [if_neg hk] at h
      cases hup : updValue rest key r with
      | none => rw [hup] at h; cases h
      | some rest' =>
        rw [hup] at h
        cases h
        by_cases hkk : k' = k
        · subst hkk
          simp [List.lookup]
        · have hbeq : (k' == k) = false := by
            simp [beq_iff_eq]
            exact hkk
          simp only [List.lookup, hbeq]
          exact ih hne hup

theorem updValue_isSome :
    ∀ {m : UniformDict} {key : String} {r : Nat} {m' : UniformDict},
      updValue m key r = some m' → (List.lookup key m).isSome := by
  intro m
  induction m with
  | nil => intro key r m' h; cases h
  | cons p rest ih =>
    intro key r m' h
    obtain ⟨k, e⟩ := p
    rw [updValue] at h
    by_cases hk : k = key
    · subst hk
      simp [List.lookup]
    · rw [if_neg hk] at h
      cases hup : updValue rest key r with
      | none => rw [hup] at h; cases h
      | some rest' =>
        have hbeq : (key == k) = false := by
          simp [beq_iff_eq]
          exact fun hc => hk hc.symm
        simp only [List.lookup, hbeq]
        exact ih hup

theorem mergeShared_lookup_absent :
    ∀ {sh mine mine' : UniformDict} {k : String},
      mergeShared sh mine = .ok mine' → k ∉ sh.map Prod.fst →
      List.lookup k mine' = List.lookup k mine := by
  intro sh
  induction sh with
  | nil => intro mine mine' k h _; cases h; rfl
  | cons p rest ih =>
    intro mine mine' k h hk
    obtain ⟨k0, e0⟩ := p
    rw [mergeShared] at h
    cases hup : updValue mine k0 e0.valueRef with
    | none => rw [hup] at h; cases h
    | some mine1 =>
      rw [hup] at h
      simp only [List.map_cons, List.mem_cons, not_or] at hk
      rw [ih h hk.2, updValue_lookup_ne hk.1 hup]

theorem mergeShared_lookup_present :
    ∀ {sh mine mine' : UniformDict} {k : String} {e : UniformE},
      (sh.map Prod.fst).Nodup → (k, e) ∈ sh →
      mergeShared sh mine = .ok mine' →
      List.lookup k mine' =
        (List.lookup k mine).map (fun e0 => { e0 with valueRef := e.valueRef }) := by
  intro sh
  induction sh with
  | nil => intro mine mine' k e _ hmem _; cases hmem
  | cons p rest ih =>
    intro mine mine' k e hnd hmem h
    obtain ⟨k0, e0⟩ := p
    rw [mergeShared] at h
    cases hup : updValue mine k0 e0.valueRef with
    | none => rw [hup] at h; cases h
    | some mine1 =>
      rw [hup] at h
      simp only [List.map_cons, List.nodup_cons] at hnd
      rcases List.mem_cons.mp hmem with hmem0 | hmemr
      · cases hmem0
        have hnotin : k ∉ rest.map Prod.fst := by
          simpa using hnd.1
        rw [mergeShared_lookup_absent h hnotin, updValue_lookup_self hup]
      · have hkne : k ≠ k0 := by
          intro hc
          subst hc
          exact hnd.1 (List.mem_map_of_mem Prod.fst hmemr)
        rw [ih hnd.2 hmemr h, updValue_lookup_ne hkne hup]

theorem mergeShared_error_of_missing :
    ∀ {sh mine : UniformDict} {k : String},
      k ∈ sh.map Prod.fst → List.lookup k mine = none →
      mergeShared sh mine = .error () := by
  intro sh
  induction sh with
  | nil => intro mine k hk _; cases hk
  | cons p rest ih =>
    intro mine k hk hmiss
    obtain ⟨k0, e0⟩ := p
    rw [mergeShared]
    cases hup : updValue mine k0 e0.valueRef with
    | none => rfl
    | some mine1 =>
      by_cases hkk : k = k0
      · subst hkk
        have := updValue_isSome hup
        rw [hmiss] at this
        cases this
      · simp only [List.map_cons, List.mem_cons] at hk
        rcases hk with hk | hk
        · exact absurd hk hkk
        · exact ih hk (by rw [updValue_lookup_ne hkk hup, hmiss])

/-- JSON.parse(JSON.stringify(uniforms)) in Renderer.add: a value-level
deep clone.  Each entry's value array is copied into a freshly allocated
heap cell; the serialize-then-parse round trip keeps the type tag and
carries no binding handle (the renderer's shared uniforms store none). -/
def cloneUniforms (heap : Heap) : UniformDict → Heap × UniformDict
  | [] => (heap, [])
  | (k, e) :: rest =>
    let heap1 := heap ++ [heap.getD e.valueRef []]
    let r := heap.length
    let res := cloneUniforms heap1 rest
    (res.1, (k, { type := e.type, valueRef := r, location := none }) :: res.2)

/-- Object.assign(target, source): write each source entry over the
target in order, overwriting an existing key in place and appending a new
key at the end. -/
def objSet : UniformDict → String → UniformE → UniformDict
  | [], key, e => [(key, e)]
  | (k, e0) :: rest, key, e =>
    if k = key then (k, e) :: rest else (k, e0) :: objSet rest key e

def assignObj (target source : UniformDict) : UniformDict :=
  source.foldl (fun t p => objSet t p.1 p.2) target

/-- The uniform seeding performed by Renderer.add:
Object.assign(settings.uniforms, JSON.parse(JSON.stringify(this.uniforms))). -/
def seedUniforms (heap : Heap) (userUniforms rendererUniforms : UniformDict) :
    Heap × UniformDict :=
  let c := cloneUniforms heap rendererUniforms
  (c.1, assignObj userUniforms c.2)

theorem cloneUniforms_heap_extends :
    ∀ (src : UniformDict) (heap : Heap),
      ∃ ext, (cloneUniforms heap src).1 = heap ++ ext := by
  intro src
  induction src with
  | nil => intro heap; exact ⟨[], by simp [cloneUniforms]⟩
  | cons p rest ih =>
    intro heap
    obtain ⟨k, e⟩ := p
    obtain ⟨ext, hext⟩ := ih (heap ++ [heap.getD e.valueRef []])
    exact ⟨[heap.getD e.valueRef []] ++ ext, by
      rw [cloneUniforms]
      simp only [hext, List.append_assoc]⟩

theorem getD_append_left {l l2 : Heap} {i : Nat} (h : i < l.length) :
    (l ++ l2).getD i [] = l.getD i [] := by
  rw [List.getD_eq_getElem?_getD, List.getD_eq_getElem?_getD,
    List.getElem?_append_left h]

theorem lookup_mem :
    ∀ {l : UniformDict} {k : String} {e : UniformE},
      List.lookup k l = some e → (k, e) ∈ l := by
  intro l
  induction l with
  | nil => intro k e h; cases h
  | cons p rest ih =>
    intro k e h
    obtain ⟨k0, e0⟩ := p
    by_cases hk : k = k0
    · subst hk
      simp only [List.lookup, beq_self_eq_true] at h
      cases h
      exact List.mem_cons_self _ _
    · have hbeq : (k == k0) = false := by
        simp [beq_iff_eq]
        exact hk
      simp only [List.lookup, hbeq] at h
      exact List.mem_cons_of_mem _ (ih h)

theorem getD_append_self (l : Heap) (x : List ℚ) (ext : Heap) :
    ((l ++ [x]) ++ ext).getD l.length [] = x := by
  rw [List.getD_eq_getElem?_getD,
    List.getElem?_append_left (by simp),
    List.getElem?_append_right (Nat.le_refl _), Nat.sub_self]
  rfl

/-- Lookup in the cloned dictionary: the entry keeps the type, points at
a fresh heap cell (at or above the old heap top), and that cell holds a
copy of the source entry's value array. -/
theorem cloneUniforms_lookup :
    ∀ (src : UniformDict) (heap : Heap) (k : String) (e : UniformE),
      (∀ p ∈ src, p.2.valueRef < heap.length) →
      List.lookup k src = some e →
      ∃ e', List.lookup k (cloneUniforms heap src).2 = some e' ∧
        e'.type = e.type ∧ heap.length ≤ e'.valueRef ∧
        (cloneUniforms heap src).1.getD e'.valueRef [] =
          heap.getD e.valueRef [] := by
  intro src
  induction src with
  | nil => intro heap k e _ hl; cases hl
  | cons p rest ih =>
    intro heap k e hvalid hl
    obtain ⟨k0, e0⟩ := p
    rw [cloneUniforms]
    by_cases hk : k = k0
    · subst hk
      simp only [List.lookup, beq_self_eq_true, Option.some.injEq] at hl
      refine ⟨⟨e0.type, heap.length, none⟩, by simp [List.lookup], by rw [hl],
        Nat.le_refl _, ?_⟩
      obtain ⟨ext, hext⟩ :=
        cloneUniforms_heap_extends rest (heap ++ [heap.getD e0.valueRef []])
      rw [hext, ← hl]
      exact getD_append_self heap _ ext
    · have hbeq : (k == k0) = false := by
        simp [beq_iff_eq]
        exact hk
      simp only [List.lookup, hbeq] at hl ⊢
      have hvalid1 : ∀ p ∈ rest,
          p.2.valueRef < (heap ++ [heap.getD e0.valueRef []]).length := by
        intro p hp
        have := hvalid p (List.mem_cons_of_mem _ hp)
        simp only [List.length_append, List.length_cons, List.length_nil]
        omega
      obtain ⟨e', he', htype, hge, hval⟩ :=
        ih (heap ++ [heap.getD e0.valueRef []]) k e hvalid1 hl
      refine ⟨e', he', htype, ?_, ?_⟩
      · simp only [List.length_append, List.length_cons, List.length_nil] at hge
        omega
      · rw [hval]
        have hmem := lookup_mem hl
        exact getD_append_left (hvalid (k, e) (List.mem_cons_of_mem _ hmem))

theorem objSet_lookup_self :
    ∀ (t : UniformDict) (key : String) (e : UniformE),
      List.lookup key (objSet t key e) = some e := by
  intro t
  induction t with
  | nil => intro key e; simp [objSet, List.lookup]
  | cons p rest ih =>
    intro key e
    obtain ⟨k0, e0⟩ := p
    rw [objSet]
    by_cases hk : k0 = key
    · rw [if_pos hk]
      subst hk
      simp [List.lookup]
    · rw [if_neg hk]
      have hbeq : (key == k0) = false := by
        simp [beq_iff_eq]
        exact fun hc => hk hc.symm
      simp only [List.lookup, hbeq]
      exact ih key e

theorem objSet_lookup_ne :
    ∀ (t : UniformDict) (key k' : String) (e : UniformE), k' ≠ key →
      List.lookup k' (objSet t key e) = List.lookup k' t := by
  intro t
  induction t with
  | nil =>
    intro key k' e hne
    have hbeq : (k' == key) = false := by
      simp [beq_iff_eq]
      exact hne
    simp [objSet, List.lookup, hbeq]
  | cons p rest ih =>
    intro key k' e hne
    obtain ⟨k0, e0⟩ := p
    rw [objSet]
    by_cases hk : k0 = key
    · rw [if_pos hk]
      subst hk
      have hbeq : (k' == k0) = false := by
        simp [beq_iff_eq]
        exact hne
      simp only [List.lookup, hbeq]
    · rw [if_neg hk]
      by_cases hkk : k' = k0
      · subst hkk
        simp [List.lookup]
      · have hbeq : (k' == k0) = false := by
          simp [beq_iff_eq]
          exact hkk
        simp only [List.lookup, hbeq]
        exact ih key k' e hne

theorem assignObj_lookup_absent :
    ∀ (source : UniformDict) (t : UniformDict) (k : String),
      k ∉ source.map Prod.fst →
      List.lookup k (assignObj t source) = List.lookup k t := by
  intro source
  induction source with
  | nil => intro t k _; rfl
  | cons p rest ih =>
    intro t k hk
    obtain ⟨k0, e0⟩ := p
    simp only [List.map_cons, List.mem_cons, not_or] at hk
    show List.lookup k (assignObj (objSet t k0 e0) rest) = List.lookup k t
    rw [ih _ k hk.2, objSet_lookup_ne t k0 k e0 hk.1]

theorem assignObj_lookup_present :
    ∀ (source : UniformDict) (t : UniformDict) (k : String) (e : UniformE),
      (source.map Prod.fst).Nodup → List.lookup k source = some e →
      List.lookup k (assignObj t source) = some e := by
  intro source
  induction source with
  | nil => intro t k e _ h; cases h
  | cons p rest ih =>
    intro t k e hnd hl
    obtain ⟨k0, e0⟩ := p
    simp only [List.map_cons, List.nodup_cons] at hnd
    show List.lookup k (assignObj (objSet t k0 e0) rest) = some e
    by_cases hk : k = k0
    · subst hk
      simp only [List.lookup, beq_self_eq_true, Option.some.injEq] at hl
      rw [assignObj_lookup_absent rest _ k (by simpa using hnd.1),
        objSet_lookup_self, hl]
    · have hbeq : (k == k0) = false := by
        simp [beq_iff_eq]
        exact hk
      simp only [List.lookup, hbeq] at hl
      exact ih _ k e hnd.2 hl

theorem cloneUniforms_keys :
    ∀ (src : UniformDict) (heap : Heap),
      (cloneUniforms heap src).2.map Prod.fst = src.map Prod.fst := by
  intro src
  induction src with
  | nil => intro heap; rfl
  | cons p rest ih =>
    intro heap
    obtain ⟨k, e⟩ := p
    rw [cloneUniforms]
    simp only [List.map_cons]
    rw [ih]

theorem getD_set_ne (l : Heap) (i j : Nat) (v : List ℚ) (hij : i ≠ j) :
    (l.set i v).getD j [] = l.getD j [] := by
  rw [List.getD_eq_getElem?_getD, List.getD_eq_getElem?_getD,
    List.getElem?_set_ne hij]

/-- C4: (a) an instance's private uniform entries whose keys do not
appear in the shared uniforms are unchanged by the uniform-update step of
Instance.render; (b) for keys that do appear, only the entry's value is
overwritten — the type tag and binding handle are preserved; (c) the
creation-time seeding in Renderer.add is a value copy of the renderer's
current shared uniforms: each seeded entry points at a freshly allocated
heap cell whose content equals the renderer's current value, so a later
write to any cell referenced by the renderer's own uniforms leaves the
seeded entry's value unchanged — shared-uniform value changes reach the
instance only through the per-frame merge, never by aliasing. -/
theorem C4_uniform_merge_and_seeding :
    (∀ (sh mine mine' : UniformDict) (k : String),
        mergeShared sh mine = .ok mine' → k ∉ sh.map Prod.fst →
        List.lookup k mine' = List.lookup k mine) ∧
    (∀ (sh mine mine' : UniformDict) (k : String) (e : UniformE),
        (sh.map Prod.fst).Nodup → (k, e) ∈ sh →
        mergeShared sh mine = .ok mine' →
        List.lookup k mine' =
          (List.lookup k mine).map (fun e0 => { e0 with valueRef := e.valueRef })) ∧
    (∀ (heap : Heap) (user rend : UniformDict),
        (rend.map Prod.fst).Nodup →
        (∀ p ∈ rend, p.2.valueRef < heap.length) →
        ∀ (k : String) (e : UniformE), List.lookup k rend = some e →
          ∃ e', List.lookup k (seedUniforms heap user rend).2 = some e' ∧
            e'.type = e.type ∧
            (seedUniforms heap user rend).1.getD e'.valueRef [] =
              heap.getD e.valueRef [] ∧
            ∀ (k2 : String) (e2 : UniformE) (newv : List ℚ),
              List.lookup k2 rend = some e2 →
              ((seedUniforms heap user rend).1.set e2.valueRef newv).getD
                  e'.valueRef [] =
                (seedUniforms heap user rend).1.getD e'.valueRef []) := by
  refine ⟨fun sh mine mine' k h hk => mergeShared_lookup_absent h hk,
    fun sh mine mine' k e hnd hmem h => mergeShared_lookup_present hnd hmem h,
    ?_⟩
  intro heap user rend hnd hvalid k e hl
  obtain ⟨e', he', htype, hge, hval⟩ := cloneUniforms_lookup rend heap k e hvalid hl
  have hclnd : ((cloneUniforms heap rend).2.map Prod.fst).Nodup := by
    rw [cloneUniforms_keys]
    exact hnd
  refine ⟨e', assignObj_lookup_present _ user k e' hclnd he', htype, hval, ?_⟩
  intro k2 e2 newv hl2
  have h2 : e2.valueRef < heap.length := by
    simpa using hvalid (k2, e2) (lookup_mem hl2)
  exact getD_set_ne _ _ _ _ (by omega)

/-- Witness for C4: one shared uniform "uP" merged into an instance
dictionary with a private entry "mv", and a seeding from a two-cell
heap. -/
theorem C4_uniform_merge_and_seeding_witness :
    List.lookup "mv" [("uP", (⟨"mat4", 5, some 9⟩ : UniformE)),
        ("mv", ⟨"float", 1, some 2⟩)] =
      List.lookup "mv" [("uP", (⟨"mat4", 0, some 9⟩ : UniformE)),
        ("mv", ⟨"float", 1, some 2⟩)] ∧
    List.lookup "uP" [("uP", (⟨"mat4", 5, some 9⟩ : UniformE)),
        ("mv", ⟨"float", 1, some 2⟩)] =
      (List.lookup "uP" [("uP", (⟨"mat4", 0, some 9⟩ : UniformE)),
        ("mv", ⟨"float", 1, some 2⟩)]).map
          (fun e0 => { e0 with valueRef := 5 }) ∧
    (∃ e', List.lookup "uP"
        (seedUniforms [[1], [2]] [] [("uP", ⟨"mat4", 0, none⟩)]).2 = some e' ∧
      e'.type = "mat4" ∧
      (seedUniforms [[1], [2]] [] [("uP", ⟨"mat4", 0, none⟩)]).1.getD
          e'.valueRef [] =
        ([[1], [2]] : Heap).getD 0 [] ∧
      ∀ (k2 : String) (e2 : UniformE) (newv : List ℚ),
        List.lookup k2 [("uP", (⟨"mat4", 0, none⟩ : UniformE))] = some e2 →
        ((seedUniforms [[1], [2]] [] [("uP", ⟨"mat4", 0, none⟩)]).1.set
            e2.valueRef newv).getD e'.valueRef [] =
          (seedUniforms [[1], [2]] [] [("uP", ⟨"mat4", 0, none⟩)]).1.getD
            e'.valueRef []) := by
  refine ⟨?_, ?_, ?_⟩
  · exact C4_uniform_merge_and_seeding.1
      [("uP", ⟨"mat4", 5, some 3⟩)]
      [("uP", ⟨"mat4", 0, some 9⟩), ("mv", ⟨"float", 1, some 2⟩)]
      [("uP", ⟨"mat4", 5, some 9⟩), ("mv", ⟨"float", 1, some 2⟩)]
      "mv" rfl (by simp)
  · exact C4_uniform_merge_and_seeding.2.1
      [("uP", ⟨"mat4", 5, some 3⟩)]
      [("uP", ⟨"mat4", 0, some 9⟩), ("mv", ⟨"float", 1, some 2⟩)]
      [("uP", ⟨"mat4", 5, some 9⟩), ("mv", ⟨"float", 1, some 2⟩)]
      "uP" ⟨"mat4", 5, some 3⟩ (by simp) (by simp) rfl
  · exact C4_uniform_merge_and_seeding.2.2
      [[1], [2]] [] [("uP", ⟨"mat4", 0, none⟩)]
      (by simp) (by intro p hp; simp at hp; rw [hp]; decide) "uP" ⟨"mat4", 0, none⟩ rfl

/-- C10: the uniform-update step of Instance.render requires every key of
the shared uniforms to already exist in the instance's private uniform
dictionary: if some shared key has no matching entry, the merge
dereferences a missing entry and render throws, rather than skipping the
key or inserting a new entry. -/
theorem C10_render_merge_throws_on_missing_key
    (sh mine : UniformDict) (k : String)
    (hk : k ∈ sh.map Prod.fst) (hmiss : List.lookup k mine = none) :
    mergeShared sh mine = .error () :=
  mergeShared_error_of_missing hk hmiss

/-- Witness for C10: a shared uniform added after instance creation has
no matching private entry, and the merge throws. -/
theorem C10_render_merge_throws_on_missing_key_witness :
    mergeShared [("uProgress", ⟨"float", 0, none⟩)] [] = .error () :=
  C10_render_merge_throws_on_missing_key
    [("uProgress", ⟨"float", 0, none⟩)] [] "uProgress" (by simp) rfl

/-! ### The renderer registry and frame-loop state machine -/

/-- The observable state of a Renderer together with its instances'
lifecycle: the keyed registry (a Map in insertion order, mapping key to
instance id), the id the next Instance construction gets, the ids of
instances whose destroy() has run, the run flag shouldRender, and the
number of times the frame-loop body render() has been entered. -/
structure RenState where
  registry : List (String × Nat)
  nextId : Nat
  destroyed : List Nat
  shouldRender : Bool
  renderCalls : Nat
deriving DecidableEq

/-- Map.prototype.set: overwrite an existing key in place (keeping its
position in insertion order) or append a new key. -/
def mapSet : List (String × Nat) → String → Nat → List (String × Nat)
  | [], key, v => [(key, v)]
  | (k, x) :: rest, key, v =>
    if k = key then (k, v) :: rest else (k, x) :: mapSet rest key v

/-- Map.prototype.delete of a key (keys are unique in a Map). -/
def mapDelete : List (String × Nat) → String → List (String × Nat)
  | [], _ => []
  | (k, x) :: rest, key => if k = key then rest else (k, x) :: mapDelete rest key

/-- One entry into Renderer.render, the frame-loop body.  The body draws
the registered instances and fires hooks; none of that changes the
registry, the flag or the instance lifecycle, so only the entry count is
recorded. -/
def render (s : RenState) : RenState := { s with renderCalls := s.renderCalls + 1 }

/-- Renderer.toggle: an explicit argument equal to the current flag
returns immediately (an omitted argument, undefined, is never equal to a
boolean); otherwise the flag becomes the explicit value or its negation,
and when the new flag is set the frame loop is re-entered synchronously
by calling this.render(). -/
def toggle (arg : Option Bool) (s : RenState) : RenState :=
  if arg == some s.shouldRender then s
  else
    let s1 := { s with shouldRender := arg.getD (!s.shouldRender) }
    if s1.shouldRender then render s1 else s1

/-- Renderer.add: construct an Instance (a fresh id) and set it under the
key, overwriting any previous entry without destroying it. -/
def add (s : RenState) (key : String) : RenState :=
  { s with registry := mapSet s.registry key s.nextId, nextId := s.nextId + 1 }

/-- Instance.destroy as it affects the lifecycle log: an instance whose
context reference was already nulled throws (this.gl.deleteBuffer /
this.gl.deleteProgram on null); otherwise the id is marked destroyed. -/
def lifecycleDestroy (s : RenState) (id : Nat) : Except Unit RenState :=
  if id ∈ s.destroyed then .error ()
  else .ok { s with destroyed := s.destroyed ++ [id] }

/-- Renderer.remove: an absent key is a no-op; otherwise destroy the
instance and delete its key. -/
def remove (s : RenState) (key : String) : Except Unit RenState :=
  match List.lookup key s.registry with
  | none => .ok s
  | some id =>
    match lifecycleDestroy s id with
    | .error u => .error u
    | .ok s1 => .ok { s1 with registry := mapDelete s1.registry key }

/-- The forEach loop of Renderer.destroy over the registry entries (in
insertion order): destroy each instance and delete its key. -/
def destroyEach : List (String × Nat) → RenState → Except Unit RenState
  | [], s => .ok s
  | (k, id) :: rest, s =>
    match lifecycleDestroy s id with
    | .error u => .error u
    | .ok s1 => destroyEach rest { s1 with registry := mapDelete s1.registry k }

/-- Renderer.destroy: destroy and remove every registered instance, then
toggle(false). -/
def rendererDestroy (s : RenState) : Except Unit RenState :=
  match destroyEach s.registry s with
  | .error u => .error u
  | .ok s1 => .ok (toggle (some false) s1)

/-- C6: toggle() called twice with no argument returns the renderer to
its original run state; toggle(false) called twice is idempotent — the
second call is a complete no-op, entering and scheduling no frame; an
explicit argument equal to the current state is a no-op; and the
Stopped-to-Running transition synchronously re-enters the frame loop
(render is called from toggle itself, observed on the entry counter). -/
theorem C6_toggle_involution_and_reentry :
    (∀ s : RenState, (toggle none (toggle none s)).shouldRender = s.shouldRender) ∧
    (∀ s : RenState,
      toggle (some false) (toggle (some false) s) = toggle (some false) s) ∧
    (∀ (s : RenState) (b : Bool), s.shouldRender = b → toggle (some b) s = s) ∧
    (∀ s : RenState, s.shouldRender = false →
      toggle (some true) s = render { s with shouldRender := true } ∧
      (toggle (some true) s).renderCalls = s.renderCalls + 1) := by
  refine ⟨?_, ?_, ?_, ?_⟩
  · intro s
    obtain ⟨reg, nid, des, b, rc⟩ := s
    cases b <;> simp [toggle, render]
  · intro s
    obtain ⟨reg, nid, des, b, rc⟩ := s
    cases b <;> simp [toggle, render]
  · intro s b h
    rw [toggle, if_pos (by rw [h]; simp)]
  · intro s h
    obtain ⟨reg, nid, des, b, rc⟩ := s
    simp only at h
    subst h
    exact ⟨by simp [toggle, render], by simp [toggle, render]⟩

/-- Witness for C6 at concrete renderer states. -/
theorem C6_toggle_involution_and_reentry_witness :
    (toggle none (toggle none ⟨[], 0, [], true, 0⟩)).shouldRender = true ∧
    toggle (some false) (toggle (some false) ⟨[], 0, [], true, 0⟩) =
      toggle (some false) ⟨[], 0, [], true, 0⟩ ∧
    toggle (some true) ⟨[], 0, [], true, 0⟩ = ⟨[], 0, [], true, 0⟩ ∧
    (toggle (some true) ⟨[], 0, [], false, 3⟩ =
      render ⟨[], 0, [], true, 3⟩ ∧
     (toggle (some true) ⟨[], 0, [], false, 3⟩).renderCalls = 3 + 1) :=
  ⟨C6_toggle_involution_and_reentry.1 ⟨[], 0, [], true, 0⟩,
   C6_toggle_involution_and_reentry.2.1 ⟨[], 0, [], true, 0⟩,
   C6_toggle_involution_and_reentry.2.2.1 ⟨[], 0, [], true, 0⟩ true rfl,
   C6_toggle_involution_and_reentry.2.2.2 ⟨[], 0, [], false, 3⟩ rfl⟩

theorem mapSet_lookup_self :
    ∀ (m : List (String × Nat)) (key : String) (v : Nat),
      List.lookup key (mapSet m key v) = some v := by
  intro m
  induction m with
  | nil => intro key v; simp [mapSet, List.lookup]
  | cons p rest ih =>
    intro key v
    obtain ⟨k, x⟩ := p
    rw [mapSet]
    by_cases hk : k = key
    · rw [if_pos hk]
      subst hk
      simp [List.lookup]
    · rw [if_neg hk]
      have hbeq : (key == k) = false := by
        simp [beq_iff_eq]
        exact fun hc => hk hc.symm
      simp only [List.lookup, hbeq]
      exact ih key v

/-- C8: Renderer.add on a key already in the registry overwrites the
previous instance without tearing it down — add never runs any destroy —
and the sequence add "a", add "a", remove "a" from an empty registry
(with fresh instance ids) leaves the registry empty after the single
remove, with only the second instance destroyed and the first never
destroyed. -/
theorem C8_add_overwrites_without_teardown :
    (∀ (s : RenState) (key : String),
      (add s key).destroyed = s.destroyed ∧
      List.lookup key (add s key).registry = some s.nextId) ∧
    (∀ (s : RenState) (key : String),
      s.registry = [] → s.nextId ∉ s.destroyed → s.nextId + 1 ∉ s.destroyed →
      ∃ s', remove (add (add s key) key) key = .ok s' ∧
        s'.registry = [] ∧
        s'.destroyed = s.destroyed ++ [s.nextId + 1] ∧
        s.nextId ∉ s'.destroyed) := by
  constructor
  · intro s key
    exact ⟨rfl, mapSet_lookup_self s.registry key s.nextId⟩
  · intro s key hreg h1 h2
    obtain ⟨reg, nid, des, b, rc⟩ := s
    simp only at hreg h1 h2
    subst hreg
    refine ⟨⟨[], nid + 2, des ++ [nid + 1], b, rc⟩, ?_, rfl, rfl, ?_⟩
    · rw [show add (add ⟨[], nid, des, b, rc⟩ key) key =
          ⟨[(key, nid + 1)], nid + 2, des, b, rc⟩ by simp [add, mapSet]]
      rw [remove]
      simp only [List.lookup, beq_self_eq_true]
      rw [lifecycleDestroy, if_neg h2]
      simp [mapDelete]
    · intro hc
      rcases List.mem_append.mp hc with hc | hc
      · exact h1 hc
      · simp at hc

/-- Witness for C8 from the empty starting state. -/
theorem C8_add_overwrites_without_teardown_witness :
    ((add ⟨[], 0, [], true, 0⟩ "a").destroyed = [] ∧
      List.lookup "a" (add ⟨[], 0, [], true, 0⟩ "a").registry = some 0) ∧
    (∃ s', remove (add (add ⟨[], 0, [], true, 0⟩ "a") "a") "a" = .ok s' ∧
      s'.registry = [] ∧ s'.destroyed = [] ++ [0 + 1] ∧ 0 ∉ s'.destroyed) :=
  ⟨C8_add_overwrites_without_teardown.1 ⟨[], 0, [], true, 0⟩ "a",
   C8_add_overwrites_without_teardown.2 ⟨[], 0, [], true, 0⟩ "a" rfl
     (by simp) (by simp)⟩

theorem toggle_false (s : RenState) :
    toggle (some false) s = { s with shouldRender := false } := by
  obtain ⟨reg, nid, des, b, rc⟩ := s
  cases b <;> simp [toggle, render]

theorem destroyEach_all :
    ∀ (entries : List (String × Nat)) (s : RenState),
      s.registry = entries →
      (entries.map Prod.snd).Nodup →
      (∀ id ∈ entries.map Prod.snd, id ∉ s.destroyed) →
      destroyEach entries s =
        .ok { s with registry := [],
                     destroyed := s.destroyed ++ entries.map Prod.snd } := by
  intro entries
  induction entries with
  | nil =>
    intro s hreg _ _
    obtain ⟨reg, nid, des, b, rc⟩ := s
    simp only at hreg
    subst hreg
    simp [destroyEach]
  | cons p rest ih =>
    intro s hreg hnd hlive
    obtain ⟨k, id⟩ := p
    simp only [List.map_cons, List.nodup_cons] at hnd
    rw [destroyEach, lifecycleDestroy, if_neg (hlive id (by simp))]
    have hdel : mapDelete s.registry k = rest := by
      rw [hreg, mapDelete, if_pos rfl]
    have hres := ih
      { s with destroyed := s.destroyed ++ [id], registry := rest }
      rfl hnd.2
      (by
        intro id2 h2
        simp only [List.mem_append, List.mem_singleton, not_or]
        refine ⟨hlive id2 (by simp [h2]), ?_⟩
        intro hc
        subst hc
        exact hnd.1 h2)
    simp only [hdel]
    rw [hres]
    simp [List.append_assoc]

/-- C9: Renderer.destroy destroys and removes every registered instance,
leaving an empty registry, and forces the run state to Stopped; invoking
it a second time does not fail (and changes nothing). -/
theorem C9_destroy_empties_and_stops
    (s : RenState)
    (hnd : (s.registry.map Prod.snd).Nodup)
    (hlive : ∀ id ∈ s.registry.map Prod.snd, id ∉ s.destroyed) :
    ∃ s', rendererDestroy s = .ok s' ∧
      s'.registry = [] ∧ s'.shouldRender = false ∧
      s'.destroyed = s.destroyed ++ s.registry.map Prod.snd ∧
      rendererDestroy s' = .ok s' := by
  have hall := destroyEach_all s.registry s rfl hnd hlive
  refine ⟨({ s with
    registry := []
    destroyed := s.destroyed ++ s.registry.map Prod.snd
    shouldRender := false } : RenState), ?_, rfl, rfl, rfl, ?_⟩
  · rw [rendererDestroy, hall]
    simp only [toggle_false]
  · rw [rendererDestroy]
    simp only [destroyEach, toggle_false]

/-- Witness for C9 at a concrete two-instance renderer. -/
theorem C9_destroy_empties_and_stops_witness :
    ∃ s', rendererDestroy ⟨[("a", 0), ("b", 1)], 2, [], true, 5⟩ = .ok s' ∧
      s'.registry = [] ∧ s'.shouldRender = false ∧
      s'.destroyed = [] ++ ([("a", 0), ("b", 1)].map Prod.snd) ∧
      rendererDestroy s' = .ok s' :=
  C9_destroy_empties_and_stops ⟨[("a", 0), ("b", 1)], 2, [], true, 5⟩
    (by simp) (by simp)

/-! ### Instance.destroy and the GL resource log -/

/-- The handles an Instance owns: the context reference (destroy() sets
it to null, modelled as none), its buffer handles and its program. -/
structure GLInstance where
  gl : Option Unit
  buffers : List Nat
  program : Nat
deriving DecidableEq

/-- The deletions an Instance has issued on the context. -/
structure GLLog where
  deletedBuffers : List Nat
  deletedPrograms : List Nat
deriving DecidableEq

/-- Instance.destroy: delete every buffer, delete the program, then null
the context reference.  When the context reference is already null (a
previous destroy ran), the very first this.gl.deleteBuffer — or, with no
buffers, this.gl.deleteProgram — dereferences null and throws, deleting
nothing. -/
def destroyInstance (inst : GLInstance) (log : GLLog) :
    Except Unit (GLInstance × GLLog) :=
  match inst.gl with
  | none => .error ()
  | some _ =>
    .ok ({ inst with gl := none },
      { log with
        deletedBuffers := log.deletedBuffers ++ inst.buffers
        deletedPrograms := log.deletedPrograms ++ [inst.program] })

/-- C7 counterexample: Instance.destroy is not idempotent.  At a concrete
live instance, the first destroy succeeds and the second call throws
(this.gl is null), so calling destroy a second time does fail. -/
theorem C7_second_destroy_fails_counterexample :
    destroyInstance ⟨some (), [0, 1], 4⟩ ⟨[], []⟩ =
      .ok (⟨none, [0, 1], 4⟩, ⟨[0, 1], [4]⟩) ∧
    destroyInstance ⟨none, [0, 1], 4⟩ ⟨[0, 1], [4]⟩ = .error () :=
  ⟨rfl, rfl⟩

/-- C7 (amended): Instance.destroy on a live instance releases every
buffer and the program exactly once and nulls the context reference, but
it is not idempotent: a second destroy on the same instance fails with a
null-context dereference (and frees nothing further). -/
theorem C7_destroy_releases_once_not_idempotent
    (inst : GLInstance) (log : GLLog) (h : inst.gl = some ()) :
    ∃ inst' log', destroyInstance inst log = .ok (inst', log') ∧
      log'.deletedBuffers = log.deletedBuffers ++ inst.buffers ∧
      log'.deletedPrograms = log.deletedPrograms ++ [inst.program] ∧
      inst'.gl = none ∧ inst'.buffers = inst.buffers ∧
      inst'.program = inst.program ∧
      destroyInstance inst' log' = .error () := by
  refine ⟨{ inst with gl := none },
    ({ log with
      deletedBuffers := log.deletedBuffers ++ inst.buffers
      deletedPrograms := log.deletedPrograms ++ [inst.program] } : GLLog),
    ?_, rfl, rfl, rfl, rfl, rfl, rfl⟩
  rw [destroyInstance.eq_def, h]

/-- Witness for the amended C7 at a concrete live instance. -/
theorem C7_destroy_releases_once_not_idempotent_witness :
    ∃ inst' log', destroyInstance ⟨some (), [2, 3], 9⟩ ⟨[], []⟩ =
        .ok (inst', log') ∧
      log'.deletedBuffers = [] ++ [2, 3] ∧
      log'.deletedPrograms = [] ++ [9] ∧
      inst'.gl = none ∧ inst'.buffers = [2, 3] ∧ inst'.program = 9 ∧
      destroyInstance inst' log' = .error () :=
  C7_destroy_releases_once_not_idempotent ⟨some (), [2, 3], 9⟩ ⟨[], []⟩ rfl
